import Mathlib

/-!
Verification of the Discord-summarizer message-retrieval core.

Shallow embedding of the repository's `dateUtils.ts` and `discord.ts`:
* the snowflake/timestamp codec (`dateToDiscordSnowflake`, `snowflakeToDate`),
* HTTP error classification (`handleResponse`),
* prompt formatting (`formatMessagesForPrompt`),
* the bounded paginated fetch loop (`getAllMessagesBetweenDates`).

JavaScript `Date` values are modelled by their millisecond timestamp as `Int`,
with `Option Int` when the value may be an Invalid Date (`getTime()` is `NaN`);
JS `BigInt` is modelled by `Int`; the snowflake string is a decimal rendering.
All definitions are computable and mirror the source line by line.
-/

/-! ### Decimal rendering and parsing (models `BigInt.prototype.toString` and `BigInt(string)`) -/

/-- Character for a single decimal digit `d < 10`. -/
def decDigitChar (d : Nat) : Char := Char.ofNat (48 + d)

/-- Render the decimal digits of `n`, most significant first, onto `acc`.
Fuel-based so that it reduces definitionally; `fuel > n` suffices. -/
def natToDigitsAux : Nat → Nat → List Char → List Char
  | 0, _, acc => acc
  | fuel + 1, n, acc =>
    if n < 10 then decDigitChar n :: acc
    else natToDigitsAux fuel (n / 10) (decDigitChar (n % 10) :: acc)

/-- Decimal digit list of a natural number (e.g. `123 ↦ ['1','2','3']`). -/
def natToDigits (n : Nat) : List Char := natToDigitsAux (n + 1) n []

/-- Numeric value of a decimal digit list, most significant first. -/
def decDigitsToNat (ds : List Char) : Nat :=
  ds.foldl (fun a c => a * 10 + (c.toNat - 48)) 0

/-- Parse a nonempty all-digit character list; `none` otherwise.
Unlike JS `parseInt`, `BigInt(string)` rejects trailing junk. -/
def parseDecDigits (cs : List Char) : Option Nat :=
  if cs ≠ [] ∧ cs.all Char.isDigit then some (decDigitsToNat cs) else none

/-- Model of `BigInt.prototype.toString()` on a (signed) integer. -/
def bigIntToString (n : Int) : String :=
  if n < 0 then "-" ++ (natToDigits n.natAbs).asString else (natToDigits n.natAbs).asString

/-- JS whitespace characters stripped by `StringToBigInt` (ASCII subset;
Unicode space separators are not exercised by this code base). -/
def isJsWhitespace (c : Char) : Bool :=
  c = ' ' || c = '\t' || c = '\n' || c = '\r' || c = '\x0b' || c = '\x0c'

/-- Model of the JS builtin `BigInt(string)`: trims whitespace, accepts an
optional sign followed by decimal digits, maps the empty/whitespace-only
string to `0`, and fails (throws, modelled as `none`) on anything else.
The unused hex/octal/binary literal forms of `StringToBigInt` are omitted:
no snowflake produced or consumed by this code base uses them. -/
def jsBigIntOfString (s : String) : Option Int :=
  let cs := ((s.toList.dropWhile isJsWhitespace).reverse.dropWhile isJsWhitespace).reverse
  match cs with
  | [] => some 0
  | c :: rest =>
    if c = '-' then (parseDecDigits rest).map (fun n => -(n : Int))
    else if c = '+' then (parseDecDigits rest).map (fun n => ((n : Nat) : Int))
    else (parseDecDigits cs).map (fun n => ((n : Nat) : Int))

/-! ### The snowflake codec (`dateUtils.ts`) -/

/-- `DateUtils.DISCORD_EPOCH`: 2015-01-01T00:00:00.000Z in Unix milliseconds. -/
def DISCORD_EPOCH : Int := 1420070400000

/-- Largest `|milliseconds|` representable by a JS `Date`
(`±8,640,000,000,000,000` ms around the Unix epoch). -/
def MAX_DATE_MS : Nat := 8640000000000000

/--
`DateUtils.snowflakeToDate(snowflake)`. Returns the decoded millisecond
timestamp, or `none` where the source returns `null`:
* empty string (the `if (!snowflake)` guard; `"0"` is truthy and passes),
* `BigInt(snowflake)` throws (non-numeric string),
* the decoded timestamp is outside the `Date`-representable range
  (`isNaN(date.getTime())`).
`snowflake >> 22n` is BigInt arithmetic shift, i.e. floor division by `2^22`.
-/
def snowflakeToDate (snowflake : String) : Option Int :=
  if snowflake = "" then none
  else
    match jsBigIntOfString snowflake with
    | none => none
    | some n =>
      let timestamp := n.fdiv (2 ^ 22) + DISCORD_EPOCH
      if timestamp.natAbs ≤ MAX_DATE_MS then some timestamp else none

/--
`DateUtils.dateToDiscordSnowflake(date)`. The JS argument `Date | string` is
modelled by `Option (Option Int)`:
* `none` — a falsy argument (`null`, `""`): the `if (!date)` guard returns `null`;
* `some none` — a truthy argument whose timestamp is `NaN` (an Invalid Date or
  unparseable date string): `BigInt(NaN)` throws, caught, `null` returned;
* `some (some t)` — a valid date with millisecond timestamp `t`.
On success the snowflake is `(t - DISCORD_EPOCH) << 22n` rendered in decimal,
and the source round-trip-verifies it through `snowflakeToDate` before
returning it.
-/
def dateToDiscordSnowflake (date : Option (Option Int)) : Option String :=
  match date with
  | none => none
  | some none => none
  | some (some t) =>
    let snowflake := bigIntToString ((t - DISCORD_EPOCH) * 2 ^ 22)
    match snowflakeToDate snowflake with
    | none => none
    | some _ => some snowflake

/-! ### Correctness of the decimal rendering/parsing pair -/

theorem decDigitChar_toNat (d : Nat) (h : d < 10) : (decDigitChar d).toNat = 48 + d := by
  interval_cases d <;> rfl

theorem decDigitChar_isDigit (d : Nat) (h : d < 10) : (decDigitChar d).isDigit = true := by
  interval_cases d <;> rfl

theorem natToDigitsAux_spec :
    ∀ fuel n acc, n < fuel →
      ∃ ds, natToDigitsAux fuel n acc = ds ++ acc ∧ ds ≠ [] ∧
        ds.all Char.isDigit = true ∧ decDigitsToNat ds = n := by
  intro fuel
  induction fuel with
  | zero => intro n acc h; omega
  | succ fuel ih =>
    intro n acc h
    by_cases h10 : n < 10
    · refine ⟨[decDigitChar n], ?_, by simp, ?_, ?_⟩
      · simp [natToDigitsAux, h10]
      · simp [List.all_cons, decDigitChar_isDigit n h10]
      · simp [decDigitsToNat, decDigitChar_toNat n h10]
    · have hdiv : n / 10 < fuel := by
        have : n / 10 < n := Nat.div_lt_self (by omega) (by omega)
        omega
      obtain ⟨ds, heq, hne, hall, hval⟩ := ih (n / 10) (decDigitChar (n % 10) :: acc) hdiv
      refine ⟨ds ++ [decDigitChar (n % 10)], ?_, by simp, ?_, ?_⟩
      · simp only [natToDigitsAux, if_neg h10, heq, List.append_assoc, List.cons_append,
          List.nil_append]
      · simp only [List.all_append, hall, List.all_cons, List.all_nil,
          decDigitChar_isDigit (n % 10) (Nat.mod_lt n (by omega)), Bool.and_self]
      · have := decDigitChar_toNat (n % 10) (Nat.mod_lt n (by omega))
        simp only [decDigitsToNat, List.foldl_append] at hval ⊢
        simp only [List.foldl_cons, List.foldl_nil, this]
        rw [hval]
        omega

theorem natToDigits_spec (n : Nat) :
    natToDigits n ≠ [] ∧ (natToDigits n).all Char.isDigit = true ∧
      decDigitsToNat (natToDigits n) = n := by
  obtain ⟨ds, heq, hne, hall, hval⟩ := natToDigitsAux_spec (n + 1) n [] (by omega)
  rw [natToDigits, heq, List.append_nil]
  exact ⟨hne, hall, hval⟩

theorem isJsWhitespace_eq_false_of_isDigit (c : Char) (h : c.isDigit = true) :
    isJsWhitespace c = false := by
  unfold isJsWhitespace
  simp only [Bool.or_eq_false_iff, decide_eq_false_iff_not]
  refine ⟨⟨⟨⟨⟨?_, ?_⟩, ?_⟩, ?_⟩, ?_⟩, ?_⟩ <;> rintro rfl <;> exact absurd h (by decide)

/-- Dropping surrounding whitespace is the identity on a list whose first and
last characters are not whitespace. -/
theorem trimEnds_eq_self (l : List Char)
    (h1 : ∀ c, l.head? = some c → isJsWhitespace c = false)
    (h2 : ∀ c, l.getLast? = some c → isJsWhitespace c = false) :
    ((l.dropWhile isJsWhitespace).reverse.dropWhile isJsWhitespace).reverse = l := by
  cases l with
  | nil => rfl
  | cons a t =>
    have ha : isJsWhitespace a = false := h1 a rfl
    rw [List.dropWhile_cons, if_neg (by simp [ha])]
    cases hr : (a :: t).reverse with
    | nil => exact absurd (List.reverse_eq_nil_iff.mp hr) (by simp)
    | cons b t2 =>
      have hb : (a :: t).getLast? = some b := by
        rw [← List.head?_reverse, hr]; rfl
      rw [List.dropWhile_cons, if_neg (by simp [h2 b hb]), ← hr, List.reverse_reverse]

theorem toList_bigIntToString (m : Int) :
    bigIntToString m = (natToDigits m.natAbs).asString ∨
      (m < 0 ∧ (bigIntToString m).toList = '-' :: natToDigits m.natAbs) := by
  by_cases h : m < 0
  · exact Or.inr ⟨h, by simp only [bigIntToString, if_pos h]; rfl⟩
  · exact Or.inl (by simp only [bigIntToString, if_neg h])

theorem isDigit_not_sign (c : Char) (h : c.isDigit = true) : c ≠ '-' ∧ c ≠ '+' :=
  ⟨fun he => by subst he; exact absurd h (by decide),
   fun he => by subst he; exact absurd h (by decide)⟩

/-- Decoding the decimal rendering of an integer recovers the integer:
`BigInt(n.toString()) = n`. -/
theorem jsBigIntOfString_bigIntToString (m : Int) :
    jsBigIntOfString (bigIntToString m) = some m := by
  obtain ⟨hne, hall, hval⟩ := natToDigits_spec m.natAbs
  have hmem : ∀ c ∈ natToDigits m.natAbs, c.isDigit = true := List.all_eq_true.mp hall
  cases hds : natToDigits m.natAbs with
  | nil => exact absurd hds hne
  | cons d rest =>
    have hd : d.isDigit = true := hmem d (hds ▸ List.mem_cons_self d rest)
    have hlastAux : ∀ c, (d :: rest).getLast? = some c → isJsWhitespace c = false := by
      intro c hc
      exact isJsWhitespace_eq_false_of_isDigit c
        (hmem c (hds ▸ List.mem_of_mem_getLast? hc))
    have hparse : parseDecDigits (d :: rest) = some m.natAbs := by
      rw [parseDecDigits, if_pos ⟨by simp, by rw [← hds]; exact hall⟩, ← hds, hval]
    by_cases hm : m < 0
    · have hlist : (bigIntToString m).toList = '-' :: d :: rest := by
        simp only [bigIntToString, if_pos hm, hds]; rfl
      have htrim :
          (((('-' : Char) :: d :: rest).dropWhile isJsWhitespace).reverse.dropWhile
            isJsWhitespace).reverse = ('-' : Char) :: d :: rest := by
        refine trimEnds_eq_self _ ?_ ?_
        · intro c hc
          simp only [List.head?_cons, Option.some.injEq] at hc
          subst hc; rfl
        · intro c hc
          rw [List.getLast?_cons_cons] at hc
          exact hlastAux c hc
      rw [jsBigIntOfString]
      simp only [hlist, htrim, if_true]
      rw [hparse]
      simp only [Option.bind_eq_bind, Option.pure_def, Option.some_bind, Option.map_some,
        Option.map_some', Option.some.injEq]
      omega
    · have hlist : (bigIntToString m).toList = d :: rest := by
        simp only [bigIntToString, if_neg hm, hds]; rfl
      have htrim :
          (((d :: rest).dropWhile isJsWhitespace).reverse.dropWhile
            isJsWhitespace).reverse = d :: rest := by
        refine trimEnds_eq_self _ ?_ ?_
        · intro c hc
          simp only [List.head?_cons, Option.some.injEq] at hc
          subst hc
          exact isJsWhitespace_eq_false_of_isDigit d hd
        · exact hlastAux
      obtain ⟨hneq1, hneq2⟩ := isDigit_not_sign d hd
      rw [jsBigIntOfString]
      simp only [hlist, htrim]
      simp only [if_neg hneq1, if_neg hneq2]
      rw [hparse]
      simp only [Option.bind_eq_bind, Option.pure_def, Option.some_bind, Option.map_some,
        Option.map_some', Option.some.injEq]
      omega

theorem bigIntToString_ne_empty (m : Int) : bigIntToString m ≠ "" := by
  obtain ⟨hne, -, -⟩ := natToDigits_spec m.natAbs
  intro h
  have hdata : (bigIntToString m).toList = [] := by rw [h]; rfl
  by_cases hm : m < 0
  · rw [show (bigIntToString m).toList = '-' :: natToDigits m.natAbs from by
      simp only [bigIntToString, if_pos hm]; rfl] at hdata
    exact List.cons_ne_nil _ _ hdata
  · rw [show (bigIntToString m).toList = natToDigits m.natAbs from by
      simp only [bigIntToString, if_neg hm]; rfl] at hdata
    exact hne hdata

/-- **C2.** For every valid `Date` `d` within the platform-representable range
(`|t| ≤ 8,640,000,000,000,000` ms), decoding the encoded cursor —
`snowflakeToDate(dateToDiscordSnowflake(d))` — recovers `d` exactly, to
millisecond precision. -/
theorem snowflake_roundtrip (t : Int) (h : t.natAbs ≤ MAX_DATE_MS) :
    ∃ s, dateToDiscordSnowflake (some (some t)) = some s ∧ snowflakeToDate s = some t := by
  have hfd : ((t - DISCORD_EPOCH) * 2 ^ 22).fdiv (2 ^ 22) = t - DISCORD_EPOCH :=
    Int.mul_fdiv_cancel _ (by norm_num)
  have hdec : snowflakeToDate (bigIntToString ((t - DISCORD_EPOCH) * 2 ^ 22)) = some t := by
    rw [snowflakeToDate, if_neg (bigIntToString_ne_empty _), jsBigIntOfString_bigIntToString]
    simp only [hfd, sub_add_cancel, if_pos h]
  refine ⟨bigIntToString ((t - DISCORD_EPOCH) * 2 ^ 22), ?_, hdec⟩
  simp only [dateToDiscordSnowflake]
  rw [hdec]

/-- Witness for C2 at the concrete date 2023-11-14T22:13:20.000Z. -/
theorem snowflake_roundtrip_witness :
    (1700000000000 : Int).natAbs ≤ MAX_DATE_MS ∧
      ∃ s, dateToDiscordSnowflake (some (some 1700000000000)) = some s ∧
        snowflakeToDate s = some 1700000000000 :=
  ⟨by decide, snowflake_roundtrip 1700000000000 (by decide)⟩

/-- **C9.** Every malformed input — `snowflakeToDate("not-a-number")`,
`snowflakeToDate("")`, and a null (`none`) or unparseable (`some none`) date
given to `dateToDiscordSnowflake` — yields the null sentinel. Neither public
codec operation lets an exception propagate: both are total Lean functions
whose every failure path returns the `none` sentinel, exactly as the source
catches its own exceptions and returns `null`. -/
theorem codec_rejects_malformed :
    snowflakeToDate "not-a-number" = none ∧ snowflakeToDate "" = none ∧
      dateToDiscordSnowflake none = none ∧ dateToDiscordSnowflake (some none) = none :=
  ⟨by decide, rfl, rfl, rfl⟩

/-! ### Messages and prompt formatting (`discord.ts`) -/

/-- `author` field of a Discord message; `username` is the display string. -/
structure Author where
  username : String
deriving DecidableEq

/-- One chat message as consumed by `discord.ts`. The `timestamp` ISO-8601
string is modelled by the millisecond value `new Date(msg.timestamp).getTime()`
that the source computes from it; `author` is `none` where the JS value is
`null`/`undefined` (falsy). -/
structure Message where
  id : String
  author : Option Author
  content : String
  timestamp : Int
deriving DecidableEq

/-- Model of JS `String.prototype.trim()`: strip leading and trailing
whitespace (ASCII whitespace set, as elsewhere in this development). -/
def jsTrimString (s : String) : String :=
  (((s.toList.dropWhile isJsWhitespace).reverse.dropWhile isJsWhitespace).reverse).asString

/-- `Discord.formatMessagesForPrompt(messages)`. The JS filter
`msg && msg.author && msg.content` drops a message whose `author` is falsy or
whose `content` is falsy — and the empty string is falsy, so empty-content
messages are dropped too (list elements themselves are never null in this
model). Survivors render as `` `${msg.author.username}: ${msg.content.trim()}` ``
and are joined with `'\n'`. -/
def formatMessagesForPrompt (messages : List Message) : String :=
  String.intercalate "\n"
    ((messages.filter (fun msg => msg.author.isSome && !(msg.content = ""))).map
      (fun msg => ((msg.author.map Author.username).getD "") ++ ": " ++ jsTrimString msg.content))

/-- Modelled from the spec's words (§4.4, §8): drop any message missing an
author or content; render remaining as `"{username}: {trimmed content}"`
lines, preserving input order. Used to state C10 as a refinement. -/
def promptLinesSpec : List Message → List String
  | [] => []
  | m :: rest =>
    match m.author with
    | none => promptLinesSpec rest
    | some a =>
      if m.content = "" then promptLinesSpec rest
      else (a.username ++ ": " ++ jsTrimString m.content) :: promptLinesSpec rest

theorem promptLines_eq (msgs : List Message) :
    (msgs.filter (fun msg => msg.author.isSome && !(msg.content = ""))).map
      (fun msg => ((msg.author.map Author.username).getD "") ++ ": " ++
        jsTrimString msg.content) = promptLinesSpec msgs := by
  induction msgs with
  | nil => rfl
  | cons m rest ih =>
    cases ha : m.author with
    | none => simpa [promptLinesSpec, List.filter_cons, ha] using ih
    | some a =>
      by_cases hc : m.content = ""
      · simpa [promptLinesSpec, List.filter_cons, ha, hc] using ih
      · simpa [promptLinesSpec, List.filter_cons, ha, hc] using ih

/-- **C10.** `formatMessagesForPrompt` drops every message missing an author
or content, renders each survivor as `"{username}: {trimmed content}"`, joins
the lines with newlines, and preserves input order (the spec-side line list
`promptLinesSpec` is by construction order-preserving); in particular
`[{author:{username:"a"},content:" hi "}, {author:null,content:"x"}]` yields
exactly `"a: hi"`. -/
theorem formatMessagesForPrompt_spec :
    (∀ msgs, formatMessagesForPrompt msgs = String.intercalate "\n" (promptLinesSpec msgs)) ∧
      formatMessagesForPrompt
        [⟨"1", some ⟨"a"⟩, " hi ", 0⟩, ⟨"2", none, "x", 0⟩] = "a: hi" :=
  ⟨fun msgs => by rw [formatMessagesForPrompt, promptLines_eq], by decide⟩

/-! ### HTTP error classification (`handleResponse`) -/

/-- Longest leading run of decimal digits of `cs`, as a number;
`none` when there is no leading digit (JS `parseInt` returns `NaN`). -/
def leadingDigitsValue (cs : List Char) : Option Nat :=
  let ds := cs.takeWhile Char.isDigit
  if ds = [] then none else some (decDigitsToNat ds)

/-- Model of JS `parseInt(s, 10)`: skip leading whitespace, read an optional
sign and then the longest prefix of decimal digits, ignoring any trailing
characters; `none` models `NaN` (no digits found). -/
def jsParseInt (s : String) : Option Int :=
  let cs := s.toList.dropWhile isJsWhitespace
  match cs with
  | [] => none
  | c :: rest =>
    if c = '-' then (leadingDigitsValue rest).map (fun n => -(n : Int))
    else if c = '+' then (leadingDigitsValue rest).map (fun n => ((n : Nat) : Int))
    else (leadingDigitsValue cs).map (fun n => ((n : Nat) : Int))

/-- The retry-after computation of `handleResponse` for status 429:
`parseInt(response.headers.get('Retry-After') || '5', 10) || 5`.
Both `||` are JS truthiness: an absent (`null`) or empty-string header falls
back to `"5"`, and a parse result of `NaN` — or of `0`, which is also
falsy — falls back to `5`. -/
def jsRetryAfterSeconds (header : Option String) : Int :=
  let raw := match header with
    | none => "5"
    | some s => if s = "" then "5" else s
  match jsParseInt raw with
  | none => 5
  | some n => if n = 0 then 5 else n

/-- A failure on the fetch path. `thrown m` models `throw new Error(m)` (an
`Error` instance with `message = m`; also covers network-level failures);
`rateLimited` models the plain object `{status, retryAfter, message}` thrown
on HTTP 429 — which is *not* an `Error` instance. -/
inductive FetchError where
  | thrown (message : String)
  | rateLimited (status : Nat) (retryAfter : Int) (message : String)
deriving DecidableEq

/-- An HTTP response as seen by `handleResponse`: `ok` (status 200-299),
`status`, the `Retry-After` header (`none` if absent) and the JSON body. -/
structure HttpResponse (α : Type) where
  ok : Bool
  status : Nat
  retryAfter : Option String
  body : α

/-- `Discord.handleResponse(response)`. On `response.ok` returns the parsed
body. Otherwise the switch on `status` replaces the generic
`HTTP error! status: {status}` message for 401/403/404 and throws an
`Error`, while 429 throws the plain rate-limit object. -/
def handleResponse {α : Type} (r : HttpResponse α) : Except FetchError α :=
  if r.ok then .ok r.body
  else
    match r.status with
    | 401 => .error (.thrown "Invalid Discord token. Please check your credentials.")
    | 403 => .error (.thrown "Access denied. Please ensure you have permission to view this channel.")
    | 429 => .error (.rateLimited 429 (jsRetryAfterSeconds r.retryAfter)
        "Rate limited by Discord API")
    | 404 => .error (.thrown "Channel not found. Please check the channel ID.")
    | s => .error (.thrown ("HTTP error! status: " ++ toString s))

/-! ### The paginated fetch loop (`getAllMessagesBetweenDates`) -/

/-- JS `Map` insertion `map.set(k, v)` on an association list in insertion
order: an existing key keeps its position and gets the new value
(last-write-wins); a fresh key is appended. -/
def mapSet (acc : List (String × Message)) (k : String) (v : Message) :
    List (String × Message) :=
  if acc.any (fun p => p.1 = k) then
    acc.map (fun p => if p.1 = k then (k, v) else p)
  else acc ++ [(k, v)]

/-- JS comparison `msgTime <= effectiveToDate.getTime()`: false when the
effective end date is an Invalid Date (`NaN` compares false). -/
def jsLeToDate (t : Int) (toT : Option Int) : Bool :=
  match toT with
  | some x => t ≤ x
  | none => false

/-- The `for (const msg of messages)` scan of one page inside
`getAllMessagesBetweenDates`: a message with `msgTime < fromDate` sets
`hitOldMessage` and breaks out of the scan; otherwise a message with
`fromDate ≤ msgTime ≤ effectiveToDate` is inserted into the accumulator
keyed by `msg.id`. Returns the new accumulator and the `hitOldMessage`
flag. -/
def processPage (fromT : Int) (toT : Option Int) :
    List Message → List (String × Message) → List (String × Message) × Bool
  | [], acc => (acc, false)
  | m :: rest, acc =>
    if m.timestamp < fromT then (acc, true)
    else
      processPage fromT toT rest
        (if fromT ≤ m.timestamp ∧ jsLeToDate m.timestamp toT then mapSet acc m.id m else acc)

/-- The `while (hasMore && pageCount < maxPages && !hitOldMessage)` loop of
`getAllMessagesBetweenDates`, with `fuel = maxPages - pageCount`. `resp k`
is the outcome of the `k`-th `fetchMessagesPage` call (the abstract network;
`fetchMessagesPage` logs and rethrows, so its outcome is the
`handleResponse` result or a `thrown` network failure). Returns the loop's
outcome — the final accumulator, or the propagated error — paired with the
trace of issued page requests, each recorded by its `before` cursor (`none`
meaning the request URL carries no `before` parameter, as in
`fetchMessagesPage`'s `if (before)` guard). An empty page stops
(`hasMore = false`); a full page of 100 that did not hit the boundary
advances the cursor to the last (oldest) message's id
(`messages[messages.length - 1].id`, hence the `getLast?` match, whose
`none` branch is unreachable for a page of length 100); the inter-page
rate-limit delay is timing only and is not modelled. -/
def fetchLoop (fromT : Int) (toT : Option Int)
    (resp : Nat → Except FetchError (List Message)) :
    Nat → Option String → List (String × Message) → Nat →
      Except FetchError (List (String × Message)) × List (Option String)
  | _, _, acc, 0 => (.ok acc, [])
  | k, cursor, acc, fuel + 1 =>
    match resp k with
    | .error e => (.error e, [cursor])
    | .ok msgs =>
      if msgs.isEmpty then (.ok acc, [cursor])
      else
        let pr := processPage fromT toT msgs acc
        if pr.2 = false ∧ msgs.length = 100 then
          match msgs.getLast? with
          | some last =>
            let r := fetchLoop fromT toT resp (k + 1) (some last.id) pr.1 fuel
            (r.1, cursor :: r.2)
          | none => (.ok pr.1, [cursor])
        else (.ok pr.1, [cursor])

/-- The sort comparator
`(a, b) => new Date(a.timestamp).getTime() - new Date(b.timestamp).getTime()`:
ascending by timestamp. -/
def msgLe (a b : Message) : Prop := a.timestamp ≤ b.timestamp

instance : DecidableRel msgLe := fun a b => Int.decLe a.timestamp b.timestamp

instance : IsTotal Message msgLe := ⟨fun a b => Int.le_total a.timestamp b.timestamp⟩

instance : IsTrans Message msgLe := ⟨fun _ _ _ => Int.le_trans⟩

/-- The wrap in `getAllMessagesBetweenDates`'s catch clause:
`error instanceof Error ? error.message : 'Unknown error'`. The 429
rate-limit failure is a plain object, not an `Error` instance, so its
content is replaced by `'Unknown error'`. -/
def errorMessageOf : FetchError → String
  | .thrown m => m
  | .rateLimited _ _ _ => "Unknown error"

/-- `const effectiveToDate = toDate || new Date()`. `toTime` models the
caller's `toDate`: `none` is JS `null` (falsy, so `now` is used);
`some none` is a truthy Invalid Date whose `getTime()` is `NaN`;
`some (some t)` is a valid date. -/
def jsEffectiveToDate (toTime : Option (Option Int)) (now : Int) : Option Int :=
  match toTime with
  | none => some now
  | some d => d

/-- `Discord.getAllMessagesBetweenDates(channelId, userToken, fromDate,
toDate, maxPages)`. `fromTime` is `fromDate.getTime()`; the channel id and
token only shape request URLs and are omitted; `resp` is the abstract
network. The initial cursor is the snowflake of the effective end date —
possibly the `null` sentinel, which is *not* checked and flows into the
first page request. A loop error is wrapped as
`Failed to fetch messages: ...`; otherwise the accumulated unique messages
are returned sorted ascending by timestamp (V8's stable sort, modelled by
insertion sort, which is stable). -/
def getAllMessagesBetweenDates (resp : Nat → Except FetchError (List Message))
    (fromTime : Int) (toTime : Option (Option Int)) (now : Int)
    (maxPages : Nat := 50) : Except String (List Message) :=
  let effectiveToDate := jsEffectiveToDate toTime now
  let beforeSnowflake := dateToDiscordSnowflake (some effectiveToDate)
  match (fetchLoop fromTime effectiveToDate resp 0 beforeSnowflake [] maxPages).1 with
  | .error e => .error ("Failed to fetch messages: " ++ errorMessageOf e)
  | .ok acc => .ok (List.insertionSort msgLe (acc.map Prod.snd))

/-- The trace of page requests issued by the same run of
`getAllMessagesBetweenDates` (observer of the loop's second component). -/
def getAllMessagesRequests (resp : Nat → Except FetchError (List Message))
    (fromTime : Int) (toTime : Option (Option Int)) (now : Int)
    (maxPages : Nat := 50) : List (Option String) :=
  (fetchLoop fromTime (jsEffectiveToDate toTime now) resp 0
    (dateToDiscordSnowflake (some (jsEffectiveToDate toTime now))) [] maxPages).2

/-! ### Accumulator invariants -/

/-- Well-formedness of the accumulator association list: keys are distinct
and each key is its message's id (as `allMessages.set(msg.id, msg)`
maintains). -/
def accWf (acc : List (String × Message)) : Prop :=
  (acc.map Prod.fst).Nodup ∧ ∀ p ∈ acc, p.1 = p.2.id

/-- Every accumulator entry lies inside the requested window. -/
def accInWindow (fromT : Int) (toT : Option Int) (acc : List (String × Message)) : Prop :=
  ∀ p ∈ acc, fromT ≤ p.2.timestamp ∧ jsLeToDate p.2.timestamp toT = true

theorem mem_mapSet (acc : List (String × Message)) (k : String) (v : Message)
    (p : String × Message) (hp : p ∈ mapSet acc k v) : p = (k, v) ∨ p ∈ acc := by
  rw [mapSet] at hp
  split at hp
  · obtain ⟨q, hq, hqe⟩ := List.mem_map.mp hp
    by_cases h : q.1 = k
    · left; rw [← hqe]; simp [h]
    · right; rw [← hqe]; simpa [h] using hq
  · rcases List.mem_append.mp hp with h | h
    · right; exact h
    · left; simpa using h

theorem accWf_mapSet (acc : List (String × Message)) (v : Message) (h : accWf acc) :
    accWf (mapSet acc v.id v) := by
  obtain ⟨hnd, hid⟩ := h
  rw [mapSet]
  split
  case isTrue hany =>
    refine ⟨?_, ?_⟩
    · have hkeys : (acc.map (fun p => if p.1 = v.id then (v.id, v) else p)).map Prod.fst =
          acc.map Prod.fst := by
        rw [List.map_map]
        refine List.map_congr_left fun p hp => ?_
        by_cases hpk : p.1 = v.id <;> simp [hpk]
      rw [hkeys]; exact hnd
    · intro p hp
      obtain ⟨q, hq, hqe⟩ := List.mem_map.mp hp
      rw [← hqe]
      by_cases hpk : q.1 = v.id
      · rw [if_pos hpk]
      · rw [if_neg hpk]; exact hid q hq
  case isFalse hany =>
    have hnotin : v.id ∉ acc.map Prod.fst := by
      intro hmem
      obtain ⟨q, hq, hqe⟩ := List.mem_map.mp hmem
      have hfalse : (acc.any fun p => decide (p.1 = v.id)) = false :=
        Bool.eq_false_iff.mpr hany
      have := List.any_eq_false.mp hfalse q hq
      simp [hqe] at this
    refine ⟨?_, ?_⟩
    · rw [List.map_append]
      simp only [List.map_cons, List.map_nil]
      rw [List.nodup_append]
      exact ⟨hnd, List.nodup_singleton _, fun a ha hb => by
        simp only [List.mem_singleton] at hb
        subst hb
        exact hnotin ha⟩
    · intro p hp
      rcases List.mem_append.mp hp with hmem | hmem
      · exact hid p hmem
      · simp only [List.mem_singleton] at hmem
        subst hmem
        rfl

theorem accInWindow_mapSet (fromT : Int) (toT : Option Int)
    (acc : List (String × Message)) (v : Message) (h : accInWindow fromT toT acc)
    (hv : fromT ≤ v.timestamp ∧ jsLeToDate v.timestamp toT = true) :
    accInWindow fromT toT (mapSet acc v.id v) := by
  intro p hp
  rcases mem_mapSet acc v.id v p hp with rfl | hmem
  · exact hv
  · exact h p hmem

theorem processPage_inv (fromT : Int) (toT : Option Int) :
    ∀ (msgs : List Message) (acc : List (String × Message)),
      accWf acc → accInWindow fromT toT acc →
      accWf (processPage fromT toT msgs acc).1 ∧
        accInWindow fromT toT (processPage fromT toT msgs acc).1 := by
  intro msgs
  induction msgs with
  | nil => intro acc h1 h2; exact ⟨h1, h2⟩
  | cons m rest ih =>
    intro acc h1 h2
    simp only [processPage]
    by_cases hold : m.timestamp < fromT
    · simp only [if_pos hold]; exact ⟨h1, h2⟩
    · simp only [if_neg hold]
      by_cases hin : fromT ≤ m.timestamp ∧ jsLeToDate m.timestamp toT = true
      · rw [if_pos hin]
        exact ih _ (accWf_mapSet acc m h1) (accInWindow_mapSet fromT toT acc m h2 hin)
      · rw [if_neg hin]
        exact ih _ h1 h2

theorem fetchLoop_inv (fromT : Int) (toT : Option Int)
    (resp : Nat → Except FetchError (List Message)) :
    ∀ (fuel k : Nat) (cursor : Option String) (acc accF : List (String × Message)),
      accWf acc → accInWindow fromT toT acc →
      (fetchLoop fromT toT resp k cursor acc fuel).1 = .ok accF →
      accWf accF ∧ accInWindow fromT toT accF := by
  intro fuel
  induction fuel with
  | zero =>
    intro k cursor acc accF h1 h2 hrun
    simp only [fetchLoop] at hrun
    simp only [Except.ok.injEq] at hrun
    subst hrun
    exact ⟨h1, h2⟩
  | succ fuel ih =>
    intro k cursor acc accF h1 h2 hrun
    simp only [fetchLoop] at hrun
    split at hrun
    · simp at hrun
    · split at hrun
      · simp only [Except.ok.injEq] at hrun
        subst hrun
        exact ⟨h1, h2⟩
      · split at hrun
        · split at hrun
          · exact ih _ _ _ accF (processPage_inv fromT toT _ acc h1 h2).1
              (processPage_inv fromT toT _ acc h1 h2).2 hrun
          · simp only [Except.ok.injEq] at hrun
            subst hrun
            exact processPage_inv fromT toT _ acc h1 h2
        · simp only [Except.ok.injEq] at hrun
          subst hrun
          exact processPage_inv fromT toT _ acc h1 h2

theorem fetchLoop_requests_length (fromT : Int) (toT : Option Int)
    (resp : Nat → Except FetchError (List Message)) :
    ∀ (fuel k : Nat) (cursor : Option String) (acc : List (String × Message)),
      (fetchLoop fromT toT resp k cursor acc fuel).2.length ≤ fuel := by
  intro fuel
  induction fuel with
  | zero => intro k cursor acc; simp [fetchLoop]
  | succ fuel ih =>
    intro k cursor acc
    simp only [fetchLoop]
    split
    · simp
    · split
      · simp
      · split
        · split
          · simp only [List.length_cons]
            exact Nat.succ_le_succ (ih _ _ _)
          · simp
        · simp

theorem fetchLoop_error_step (fromT : Int) (toT : Option Int)
    (resp : Nat → Except FetchError (List Message)) (k : Nat) (cursor : Option String)
    (acc : List (String × Message)) (fuel : Nat) (e : FetchError)
    (h : resp k = .error e) :
    fetchLoop fromT toT resp k cursor acc (fuel + 1) = (.error e, [cursor]) := by
  simp only [fetchLoop, h]

theorem fetchLoop_stop_of_hitOld (fromT : Int) (toT : Option Int)
    (resp : Nat → Except FetchError (List Message)) (k : Nat) (cursor : Option String)
    (acc : List (String × Message)) (fuel : Nat) (msgs : List Message)
    (h : resp k = .ok msgs) (hne : msgs.isEmpty = false)
    (hhit : (processPage fromT toT msgs acc).2 = true) :
    fetchLoop fromT toT resp k cursor acc (fuel + 1) =
      (.ok (processPage fromT toT msgs acc).1, [cursor]) := by
  simp only [fetchLoop, h, hne, Bool.false_eq_true, if_false]
  rw [if_neg (by simp [hhit])]

theorem processPage_break (fromT : Int) (toT : Option Int) :
    ∀ (pre : List Message) (bad : Message) (post : List Message)
      (acc : List (String × Message)),
      (∀ m ∈ pre, ¬(m.timestamp < fromT)) → bad.timestamp < fromT →
      processPage fromT toT (pre ++ bad :: post) acc =
        ((processPage fromT toT pre acc).1, true) := by
  intro pre
  induction pre with
  | nil =>
    intro bad post acc hpre hbad
    simp only [List.nil_append, processPage, if_pos hbad]
  | cons m pre ih =>
    intro bad post acc hpre hbad
    have hm : ¬(m.timestamp < fromT) := hpre m (List.mem_cons_self m pre)
    simp only [List.cons_append, processPage, if_neg hm]
    exact ih bad post _ (fun x hx => hpre x (List.mem_cons_of_mem m hx)) hbad

theorem processPage_no_insert (fromT : Int) (toT : Option Int) :
    ∀ (msgs : List Message) (acc : List (String × Message)),
      (∀ m ∈ msgs, ¬(fromT ≤ m.timestamp ∧ jsLeToDate m.timestamp toT = true)) →
      (processPage fromT toT msgs acc).1 = acc := by
  intro msgs
  induction msgs with
  | nil => intro acc h; rfl
  | cons m rest ih =>
    intro acc h
    simp only [processPage]
    by_cases hold : m.timestamp < fromT
    · rw [if_pos hold]
    · rw [if_neg hold, if_neg (h m (List.mem_cons_self m rest))]
      exact ih acc (fun x hx => h x (List.mem_cons_of_mem m hx))

theorem fetchLoop_no_qualifying (fromT : Int) (toT : Option Int)
    (resp : Nat → Except FetchError (List Message))
    (hresp : ∀ j, ∃ msgs, resp j = .ok msgs ∧
      ∀ m ∈ msgs, ¬(fromT ≤ m.timestamp ∧ jsLeToDate m.timestamp toT = true)) :
    ∀ (fuel k : Nat) (cursor : Option String) (acc : List (String × Message)),
      (fetchLoop fromT toT resp k cursor acc fuel).1 = .ok acc := by
  intro fuel
  induction fuel with
  | zero => intro k cursor acc; rfl
  | succ fuel ih =>
    intro k cursor acc
    obtain ⟨msgs, hk, hout⟩ := hresp k
    simp only [fetchLoop, hk]
    have hacc := processPage_no_insert fromT toT msgs acc hout
    by_cases he : msgs.isEmpty
    · rw [if_pos he]
    · rw [if_neg he]
      split
      · split
        · rw [hacc]
          exact ih _ _ _
        · exact congrArg Except.ok hacc
      · exact congrArg Except.ok hacc

theorem processPage_all_in (fromT : Int) (toT : Option Int) :
    ∀ (msgs : List Message) (acc : List (String × Message)),
      (∀ m ∈ msgs, fromT ≤ m.timestamp ∧ jsLeToDate m.timestamp toT = true) →
      (msgs.map Message.id).Nodup →
      (∀ m ∈ msgs, (acc.any (fun p => p.1 = m.id)) = false) →
      processPage fromT toT msgs acc =
        (acc ++ msgs.map (fun m => (m.id, m)), false) := by
  intro msgs
  induction msgs with
  | nil => intro acc h1 h2 h3; simp [processPage]
  | cons m rest ih =>
    intro acc h1 h2 h3
    have hm := h1 m (List.mem_cons_self m rest)
    rw [List.map_cons, List.nodup_cons] at h2
    obtain ⟨hnotin, hndrest⟩ := h2
    simp only [processPage]
    rw [if_neg (Int.not_lt.mpr hm.1), if_pos hm]
    rw [show mapSet acc m.id m = acc ++ [(m.id, m)] from by
      rw [mapSet, if_neg (by simp [h3 m (List.mem_cons_self m rest)])]]
    rw [ih (acc ++ [(m.id, m)]) (fun x hx => h1 x (List.mem_cons_of_mem m hx)) hndrest
      (fun x hx => by
        rw [List.any_append]
        have h4 : acc.any (fun p => p.1 = x.id) = false :=
          h3 x (List.mem_cons_of_mem m hx)
        have h5 : ¬(m.id = x.id) := fun he =>
          hnotin (he ▸ List.mem_map_of_mem Message.id hx)
        simp [h4, h5])]
    simp [List.append_assoc]

theorem fetchLoop_one (fromT : Int) (toT : Option Int)
    (resp : Nat → Except FetchError (List Message)) (k : Nat) (cursor : Option String)
    (acc : List (String × Message)) (msgs : List Message) (h : resp k = .ok msgs) :
    fetchLoop fromT toT resp k cursor acc 1 =
      (.ok (if msgs.isEmpty then acc else (processPage fromT toT msgs acc).1),
        [cursor]) := by
  simp only [fetchLoop, h]
  by_cases he : msgs.isEmpty
  · rw [if_pos he, if_pos he]
  · rw [if_neg he, if_neg he]
    split
    · split
      · rfl
      · rfl
    · rfl

/-! ### Claim theorems for the fetch loop -/

/-- **C1.** In every run of `getAllMessagesBetweenDates` (with a valid
effective end date `efft = toDate or now`): every returned message has
`fromDate ≤ timestamp ≤ effectiveToDate` (both bounds inclusive); when a
message older than `fromDate` is met in a page, the rest of that page is not
scanned (the scan returns at that point with `hitOldMessage = true`,
inserting nothing further) and no further pages are fetched (the loop
returns right after that page, its request trace ending there); and a
channel with no qualifying messages in the window yields `.ok []`, not an
error. -/
theorem getAllMessages_window :
    (∀ (resp : Nat → Except FetchError (List Message)) (fromT : Int)
        (toTime : Option (Option Int)) (now : Int) (maxPages : Nat) (efft : Int)
        (res : List Message),
      jsEffectiveToDate toTime now = some efft →
      getAllMessagesBetweenDates resp fromT toTime now maxPages = .ok res →
      ∀ m ∈ res, fromT ≤ m.timestamp ∧ m.timestamp ≤ efft) ∧
    (∀ (fromT : Int) (toT : Option Int) (pre : List Message) (bad : Message)
        (post : List Message) (acc : List (String × Message)),
      (∀ m ∈ pre, ¬(m.timestamp < fromT)) → bad.timestamp < fromT →
      processPage fromT toT (pre ++ bad :: post) acc =
        ((processPage fromT toT pre acc).1, true)) ∧
    (∀ (fromT : Int) (toT : Option Int)
        (resp : Nat → Except FetchError (List Message)) (k : Nat)
        (cursor : Option String) (acc : List (String × Message)) (fuel : Nat)
        (msgs : List Message),
      resp k = .ok msgs → msgs.isEmpty = false →
      (processPage fromT toT msgs acc).2 = true →
      fetchLoop fromT toT resp k cursor acc (fuel + 1) =
        (.ok (processPage fromT toT msgs acc).1, [cursor])) ∧
    (∀ (resp : Nat → Except FetchError (List Message)) (fromT : Int)
        (toTime : Option (Option Int)) (now : Int) (maxPages : Nat) (efft : Int),
      jsEffectiveToDate toTime now = some efft →
      (∀ j, ∃ msgs, resp j = .ok msgs ∧
        ∀ m ∈ msgs, m.timestamp < fromT ∨ efft < m.timestamp) →
      getAllMessagesBetweenDates resp fromT toTime now maxPages = .ok []) := by
  refine ⟨?_, processPage_break, fetchLoop_stop_of_hitOld, ?_⟩
  · intro resp fromT toTime now maxPages efft res heff hrun m hm
    simp only [getAllMessagesBetweenDates, heff] at hrun
    cases hloop : (fetchLoop fromT (some efft) resp 0
        (dateToDiscordSnowflake (some (some efft))) [] maxPages).1 with
    | error e => rw [hloop] at hrun; simp at hrun
    | ok accF =>
      rw [hloop] at hrun
      simp only [Except.ok.injEq] at hrun
      subst hrun
      obtain ⟨-, hwin⟩ := fetchLoop_inv fromT (some efft) resp maxPages 0
        (dateToDiscordSnowflake (some (some efft))) [] accF
        ⟨List.nodup_nil, fun p hp => absurd hp (List.not_mem_nil p)⟩
        (fun p hp => absurd hp (List.not_mem_nil p)) hloop
      have hmem : m ∈ accF.map Prod.snd :=
        ((List.perm_insertionSort msgLe (accF.map Prod.snd)).mem_iff).mp hm
      obtain ⟨p, hp, hpm⟩ := List.mem_map.mp hmem
      obtain ⟨hlo, hhi⟩ := hwin p hp
      rw [hpm] at hlo hhi
      refine ⟨hlo, ?_⟩
      simpa [jsLeToDate] using hhi
  · intro resp fromT toTime now maxPages efft heff hresp
    have hloop := fetchLoop_no_qualifying fromT (some efft) resp
      (fun j => by
        obtain ⟨msgs, hj, hout⟩ := hresp j
        refine ⟨msgs, hj, fun m hmm hin => ?_⟩
        rcases hout m hmm with h | h
        · exact absurd hin.1 (Int.not_le.mpr h)
        · have : m.timestamp ≤ efft := by simpa [jsLeToDate] using hin.2
          omega)
      maxPages 0 (dateToDiscordSnowflake (some (some efft))) []
    simp only [getAllMessagesBetweenDates, heff, hloop]
    rfl

/-- Witness for C1: concrete runs exercising all four conjuncts. -/
theorem getAllMessages_window_witness :
    (∀ m ∈ ([] : List Message), (0 : Int) ≤ m.timestamp ∧ m.timestamp ≤ 100) ∧
    processPage 0 (some 100)
        ([⟨"b", none, "c", 20⟩] ++ (⟨"old", none, "c", -5⟩ : Message) ::
          [⟨"x", none, "c", 10⟩]) []
      = ((processPage 0 (some 100) [⟨"b", none, "c", 20⟩] []).1, true) ∧
    fetchLoop 0 (some 100) (fun _ => .ok [⟨"old", none, "c", -5⟩]) 0 none [] (49 + 1)
      = (.ok (processPage 0 (some 100) [⟨"old", none, "c", -5⟩] []).1, [none]) ∧
    getAllMessagesBetweenDates (fun _ => .ok []) 0 none 100 50 = .ok [] := by
  refine ⟨?_, ?_, ?_, ?_⟩
  · exact getAllMessages_window.1 (fun _ => .ok []) 0 none 100 50 100 [] rfl rfl
  · exact getAllMessages_window.2.1 0 (some 100) [⟨"b", none, "c", 20⟩]
      ⟨"old", none, "c", -5⟩ [⟨"x", none, "c", 10⟩] [] (by decide) (by decide)
  · exact getAllMessages_window.2.2.1 0 (some 100)
      (fun _ => .ok [⟨"old", none, "c", -5⟩]) 0 none [] 49
      [⟨"old", none, "c", -5⟩] rfl (by decide) (by decide)
  · exact getAllMessages_window.2.2.2 (fun _ => .ok []) 0 none 100 50 100 rfl
      (fun j => ⟨[], rfl, fun m hm => absurd hm (List.not_mem_nil m)⟩)

theorem find?_map_replace :
    ∀ (acc : List (String × Message)) (k : String) (v : Message),
      acc.any (fun p => p.1 = k) = true →
      (((acc.map (fun p => if p.1 = k then (k, v) else p)).find?
          (fun p => p.1 = k)).map Prod.snd) = some v := by
  intro acc k v hany
  induction acc with
  | nil => simp at hany
  | cons p rest ih =>
    simp only [List.map_cons]
    by_cases hpk : p.1 = k
    · rw [if_pos hpk, List.find?_cons_of_pos _ (by simp)]
      rfl
    · rw [if_neg hpk, List.find?_cons_of_neg _ (by simp [hpk])]
      exact ih (by simpa [List.any_cons, hpk] using hany)

theorem find?_append_fresh :
    ∀ (acc : List (String × Message)) (k : String) (v : Message),
      acc.any (fun p => p.1 = k) = false →
      (((acc ++ [(k, v)]).find? (fun p => p.1 = k)).map Prod.snd) = some v := by
  intro acc k v hany
  induction acc with
  | nil => rw [List.nil_append, List.find?_cons_of_pos _ (by simp)]; rfl
  | cons p rest ih =>
    simp only [List.any_cons, Bool.or_eq_false_iff] at hany
    rw [List.cons_append, List.find?_cons_of_neg _ (by simp [hany.1])]
    exact ih hany.2

/-- After `mapSet acc k v`, looking the key `k` up finds exactly `v`:
last-write-wins. -/
theorem mapSet_lastWriteWins (acc : List (String × Message)) (k : String) (v : Message) :
    (((mapSet acc k v).find? (fun p => p.1 = k)).map Prod.snd) = some v := by
  rw [mapSet]
  split
  case isTrue hany => exact find?_map_replace acc k v hany
  case isFalse hany => exact find?_append_fresh acc k v (Bool.eq_false_iff.mpr hany)

/-- **C3.** In every run of `getAllMessagesBetweenDates` — in particular when
the same message id appears in more than one fetched page (boundary
overlap) — the returned sequence contains exactly one entry per id (the ids
of the result are pairwise distinct), because accumulation is keyed by
message id; and the keyed insertion is last-write-wins on duplicates. -/
theorem getAllMessages_dedup :
    (∀ (resp : Nat → Except FetchError (List Message)) (fromT : Int)
        (toTime : Option (Option Int)) (now : Int) (maxPages : Nat)
        (res : List Message),
      getAllMessagesBetweenDates resp fromT toTime now maxPages = .ok res →
      (res.map Message.id).Nodup) ∧
    (∀ (acc : List (String × Message)) (k : String) (v : Message),
      (((mapSet acc k v).find? (fun p => p.1 = k)).map Prod.snd) = some v) := by
  refine ⟨?_, mapSet_lastWriteWins⟩
  intro resp fromT toTime now maxPages res hrun
  simp only [getAllMessagesBetweenDates] at hrun
  cases hloop : (fetchLoop fromT (jsEffectiveToDate toTime now) resp 0
      (dateToDiscordSnowflake (some (jsEffectiveToDate toTime now))) [] maxPages).1 with
  | error e => rw [hloop] at hrun; simp at hrun
  | ok accF =>
    rw [hloop] at hrun
    simp only [Except.ok.injEq] at hrun
    subst hrun
    obtain ⟨⟨hnd, hid⟩, -⟩ := fetchLoop_inv fromT (jsEffectiveToDate toTime now) resp
      maxPages 0 (dateToDiscordSnowflake (some (jsEffectiveToDate toTime now))) [] accF
      ⟨List.nodup_nil, fun p hp => absurd hp (List.not_mem_nil p)⟩
      (fun p hp => absurd hp (List.not_mem_nil p)) hloop
    have hperm : ((List.insertionSort msgLe (accF.map Prod.snd)).map Message.id).Perm
        ((accF.map Prod.snd).map Message.id) :=
      (List.perm_insertionSort msgLe (accF.map Prod.snd)).map Message.id
    have hkeys : (accF.map Prod.snd).map Message.id = accF.map Prod.fst := by
      rw [List.map_map]
      exact List.map_congr_left fun p hp => (hid p hp).symm
    rw [hkeys] at hperm
    exact hperm.nodup_iff.mpr hnd

/-- A full page (100 copies of message id `"m"`), and a network on which the
same id `"m"` then reappears on the second page: boundary overlap. -/
def dupPage : List Message := List.replicate 100 ⟨"m", some ⟨"u"⟩, "c1", 10⟩

/-- Network trace for the duplicate-id run: page 0 is `dupPage` (full, so the
walk continues), page 1 repeats id `"m"` (newer write `"c2"`) and adds
`"a"`. -/
def dupResp : Nat → Except FetchError (List Message) := fun k =>
  match k with
  | 0 => .ok dupPage
  | _ => .ok [⟨"m", some ⟨"u"⟩, "c2", 10⟩, ⟨"a", some ⟨"u"⟩, "c3", 5⟩]

set_option maxRecDepth 100000 in
/-- Witness for C3: a run whose pages overlap on id `"m"` yields one entry
per id, and a concrete last-write-wins lookup. -/
theorem getAllMessages_dedup_witness :
    ((([⟨"a", some ⟨"u"⟩, "c3", 5⟩, ⟨"m", some ⟨"u"⟩, "c2", 10⟩] :
        List Message)).map Message.id).Nodup ∧
    (((mapSet [] "m" ⟨"m", some ⟨"u"⟩, "c1", 10⟩).find?
        (fun p => p.1 = "m")).map Prod.snd) = some ⟨"m", some ⟨"u"⟩, "c1", 10⟩ :=
  ⟨getAllMessages_dedup.1 dupResp 0 (some (some 100)) 0 50 _ rfl,
    getAllMessages_dedup.2 [] "m" ⟨"m", some ⟨"u"⟩, "c1", 10⟩⟩

/-- **C4.** In every run of `getAllMessagesBetweenDates`, whatever order
pages and the messages inside them arrive in (the network `resp` is
arbitrary), the returned sequence is pairwise non-decreasing by message
timestamp. -/
theorem getAllMessages_sorted (resp : Nat → Except FetchError (List Message))
    (fromT : Int) (toTime : Option (Option Int)) (now : Int) (maxPages : Nat)
    (res : List Message)
    (hrun : getAllMessagesBetweenDates resp fromT toTime now maxPages = .ok res) :
    res.Pairwise (fun a b : Message => a.timestamp ≤ b.timestamp) := by
  simp only [getAllMessagesBetweenDates] at hrun
  cases hloop : (fetchLoop fromT (jsEffectiveToDate toTime now) resp 0
      (dateToDiscordSnowflake (some (jsEffectiveToDate toTime now))) [] maxPages).1 with
  | error e => rw [hloop] at hrun; simp at hrun
  | ok accF =>
    rw [hloop] at hrun
    simp only [Except.ok.injEq] at hrun
    subst hrun
    exact List.sorted_insertionSort msgLe (accF.map Prod.snd)

/-- Network trace for the C4 witness: one page, newest-first as Discord
delivers it. -/
def unsortedResp : Nat → Except FetchError (List Message) := fun k =>
  match k with
  | 0 => .ok [⟨"b", some ⟨"u"⟩, "y", 20⟩, ⟨"a", some ⟨"u"⟩, "x", 10⟩]
  | _ => .ok []

/-- Witness for C4: the run on a newest-first page returns the messages in
ascending timestamp order. -/
theorem getAllMessages_sorted_witness :
    ([⟨"a", some ⟨"u"⟩, "x", 10⟩, ⟨"b", some ⟨"u"⟩, "y", 20⟩] :
        List Message).Pairwise (fun a b : Message => a.timestamp ≤ b.timestamp) :=
  getAllMessages_sorted unsortedResp 0 (some (some 100)) 0 50 _ rfl


/-- **C5.** The walk always terminates (structural recursion on the page
budget) and issues at most `maxPages` page fetches: the request trace is
never longer than the bound. With `maxPages = 1`, exactly one page is
fetched whatever that page holds; and when that single page's messages all
qualify (as for a channel holding more than 100 qualifying messages, whose
first page of 100 qualifies entirely), the run returns exactly that page's
messages, sorted — reaching the bound truncates silently (`.ok`, not a
failure). -/
theorem getAllMessages_maxPages :
    (∀ (fromT : Int) (toT : Option Int)
        (resp : Nat → Except FetchError (List Message)) (fuel k : Nat)
        (cursor : Option String) (acc : List (String × Message)),
      (fetchLoop fromT toT resp k cursor acc fuel).2.length ≤ fuel) ∧
    (∀ (resp : Nat → Except FetchError (List Message)) (fromT : Int)
        (toTime : Option (Option Int)) (now : Int) (maxPages : Nat),
      (getAllMessagesRequests resp fromT toTime now maxPages).length ≤ maxPages) ∧
    (∀ (fromT : Int) (toT : Option Int)
        (resp : Nat → Except FetchError (List Message)) (k : Nat)
        (cursor : Option String) (acc : List (String × Message))
        (msgs : List Message), resp k = .ok msgs →
      (fetchLoop fromT toT resp k cursor acc 1).2 = [cursor]) ∧
    (∀ (resp : Nat → Except FetchError (List Message)) (fromT : Int)
        (toTime : Option (Option Int)) (now : Int) (efft : Int)
        (msgs : List Message),
      jsEffectiveToDate toTime now = some efft →
      resp 0 = .ok msgs → msgs ≠ [] →
      (∀ m ∈ msgs, fromT ≤ m.timestamp ∧ m.timestamp ≤ efft) →
      (msgs.map Message.id).Nodup →
      getAllMessagesBetweenDates resp fromT toTime now 1 =
          .ok (List.insertionSort msgLe msgs) ∧
        getAllMessagesRequests resp fromT toTime now 1 =
          [dateToDiscordSnowflake (some (some efft))]) := by
  refine ⟨fun fromT toT resp fuel k cursor acc =>
      fetchLoop_requests_length fromT toT resp fuel k cursor acc, ?_, ?_, ?_⟩
  · intro resp fromT toTime now maxPages
    exact fetchLoop_requests_length _ _ _ _ _ _ _
  · intro fromT toT resp k cursor acc msgs h
    rw [fetchLoop_one fromT toT resp k cursor acc msgs h]
  · intro resp fromT toTime now efft msgs heff h0 hne hwin hnodup
    have hwin2 : ∀ m ∈ msgs, fromT ≤ m.timestamp ∧
        jsLeToDate m.timestamp (some efft) = true := by
      intro m hm
      exact ⟨(hwin m hm).1, by simpa [jsLeToDate] using (hwin m hm).2⟩
    have hpp : processPage fromT (some efft) msgs [] =
        ([] ++ msgs.map (fun m => (m.id, m)), false) :=
      processPage_all_in fromT (some efft) msgs [] hwin2 hnodup (fun m _ => rfl)
    have hloop := fetchLoop_one fromT (some efft) resp 0
      (dateToDiscordSnowflake (some (some efft))) [] msgs h0
    rw [if_neg (by simpa [List.isEmpty_iff] using hne), hpp] at hloop
    constructor
    · simp only [getAllMessagesBetweenDates, heff]
      rw [show (fetchLoop fromT (some efft) resp 0
          (dateToDiscordSnowflake (some (some efft))) [] 1).1 =
          .ok ([] ++ msgs.map (fun m => (m.id, m))) from by rw [hloop]]
      simp only [List.nil_append, List.map_map]
      have hsnd : msgs.map (Prod.snd ∘ fun m => (m.id, m)) = msgs :=
        List.map_congr_left (fun m _ => rfl) |>.trans (List.map_id msgs)
      rw [hsnd]
    · simp only [getAllMessagesRequests, heff]
      rw [show (fetchLoop fromT (some efft) resp 0
          (dateToDiscordSnowflake (some (some efft))) [] 1).2 =
          [dateToDiscordSnowflake (some (some efft))] from by rw [hloop]]

/-- A full page of 100 distinct qualifying messages (the first page of a
channel holding more than 100 qualifying messages). -/
def bigPage : List Message :=
  (List.range 100).map (fun i => ⟨toString i, some ⟨"u"⟩, "c", 10⟩)

/-- A network with unboundedly many full pages available. -/
def bigResp : Nat → Except FetchError (List Message) := fun _ => .ok bigPage

/-- Witness for C5: with `maxPages = 1` on the over-full channel, one
request is issued and the result is the single page, sorted. -/
theorem getAllMessages_maxPages_witness :
    (fetchLoop 0 (some 100) bigResp 0 none [] 50).2.length ≤ 50 ∧
    (getAllMessagesRequests bigResp 0 (some (some 100)) 0 1).length ≤ 1 ∧
    (fetchLoop 0 (some 100) bigResp 0 none [] 1).2 = [none] ∧
    (getAllMessagesBetweenDates bigResp 0 (some (some 100)) 0 1 =
        .ok (List.insertionSort msgLe bigPage) ∧
      getAllMessagesRequests bigResp 0 (some (some 100)) 0 1 =
        [dateToDiscordSnowflake (some (some 100))]) :=
  ⟨getAllMessages_maxPages.1 0 (some 100) bigResp 50 0 none [],
    getAllMessages_maxPages.2.1 bigResp 0 (some (some 100)) 0 1,
    getAllMessages_maxPages.2.2.1 0 (some 100) bigResp 0 none [] bigPage rfl,
    getAllMessages_maxPages.2.2.2 bigResp 0 (some (some 100)) 0 100 bigPage rfl rfl
      (by decide) (by decide) (by decide)⟩

/-- C7 counterexample: two runs failing with *different* underlying
rate-limit causes (retry-after 12 vs 99) produce the *same* wrapped error
`"Failed to fetch messages: Unknown error"` — the wrapped error does not
carry the underlying cause, because the 429 failure is a plain thrown
object and `error instanceof Error` is false for it. -/
theorem getAllMessages_wrap_counterexample :
    getAllMessagesBetweenDates
        (fun _ => .error (.rateLimited 429 12 "Rate limited by Discord API"))
        0 none 0 50
      = .error "Failed to fetch messages: Unknown error" ∧
    getAllMessagesBetweenDates
        (fun _ => .error (.rateLimited 429 99 "Rate limited by Discord API"))
        0 none 0 50
      = .error "Failed to fetch messages: Unknown error" := ⟨rfl, rfl⟩

/-- **C7 (amended).** Any fetch failure inside the loop aborts the whole
operation at once (the loop returns the error without touching later
pages), and `getAllMessagesBetweenDates` returns `.error` — no partial
results, since the error carries no message list. The wrapped message
carries the underlying cause's message when the cause is an `Error`
instance (`thrown`), but the 429 rate-limit failure is a plain object, not
an `Error`, so it wraps as `"Failed to fetch messages: Unknown error"`,
losing the cause. -/
theorem getAllMessages_error_propagation :
    (∀ (fromT : Int) (toT : Option Int)
        (resp : Nat → Except FetchError (List Message)) (k : Nat)
        (cursor : Option String) (acc : List (String × Message)) (fuel : Nat)
        (e : FetchError), resp k = .error e →
      fetchLoop fromT toT resp k cursor acc (fuel + 1) = (.error e, [cursor])) ∧
    (∀ (resp : Nat → Except FetchError (List Message)) (fromT : Int)
        (toTime : Option (Option Int)) (now : Int) (maxPages : Nat)
        (e : FetchError),
      (fetchLoop fromT (jsEffectiveToDate toTime now) resp 0
          (dateToDiscordSnowflake (some (jsEffectiveToDate toTime now))) []
          maxPages).1 = .error e →
      getAllMessagesBetweenDates resp fromT toTime now maxPages =
        .error ("Failed to fetch messages: " ++ errorMessageOf e)) ∧
    (∀ m, errorMessageOf (.thrown m) = m) ∧
    (∀ s ra m, errorMessageOf (.rateLimited s ra m) = "Unknown error") := by
  refine ⟨fetchLoop_error_step, ?_, fun m => rfl, fun s ra m => rfl⟩
  intro resp fromT toTime now maxPages e hloop
  simp only [getAllMessagesBetweenDates, hloop]

/-- Witness for C7: a network whose first fetch throws `Error("boom")`
aborts the whole run with the wrapped message, and the error-message
translation is as stated. -/
theorem getAllMessages_error_propagation_witness :
    fetchLoop 0 (some 100) (fun _ => .error (.thrown "boom")) 0 none [] (49 + 1) =
        (.error (.thrown "boom"), [none]) ∧
    getAllMessagesBetweenDates (fun _ => .error (.thrown "boom")) 0 none 0 50 =
        .error ("Failed to fetch messages: " ++ errorMessageOf (.thrown "boom")) ∧
    errorMessageOf (.thrown "boom") = "boom" ∧
    errorMessageOf (.rateLimited 429 12 "Rate limited by Discord API") =
      "Unknown error" :=
  ⟨getAllMessages_error_propagation.1 0 (some 100) (fun _ => .error (.thrown "boom"))
      0 none [] 49 (.thrown "boom") rfl,
    getAllMessages_error_propagation.2.1 (fun _ => .error (.thrown "boom")) 0 none 0 50
      (.thrown "boom") rfl,
    getAllMessages_error_propagation.2.2.1 "boom",
    getAllMessages_error_propagation.2.2.2 429 12 "Rate limited by Discord API"⟩

theorem fetchLoop_head_request (fromT : Int) (toT : Option Int)
    (resp : Nat → Except FetchError (List Message)) (k : Nat)
    (cursor : Option String) (acc : List (String × Message)) (fuel : Nat) :
    (fetchLoop fromT toT resp k cursor acc (fuel + 1)).2.head? = some cursor := by
  simp only [fetchLoop]
  split
  · rfl
  · split
    · rfl
    · split
      · split
        · rfl
        · rfl
      · rfl

/-- C8 counterexample: a run whose effective end date is an Invalid Date —
so `dateToDiscordSnowflake` returns the null sentinel for the initial
cursor — still issues a page request (with no `before` cursor): the caller
does not abort before fetching. -/
theorem getAllMessages_sentinel_counterexample :
    dateToDiscordSnowflake (some (jsEffectiveToDate (some none) 0)) = none ∧
    getAllMessagesRequests (fun _ => .ok []) 0 (some none) 0 50 = [none] ∧
    getAllMessagesRequests (fun _ => .ok []) 0 (some none) 0 50 ≠ [] :=
  ⟨rfl, rfl, by decide⟩

/-- **C8 (amended).** `getAllMessagesBetweenDates` performs no explicit
check of `dateToDiscordSnowflake`'s null sentinel: for any `maxPages ≥ 1`
the first page request is always issued, and its `before` cursor is exactly
the codec's result — the sentinel included, in which case the request
simply carries no `before` parameter (`fetchMessagesPage`'s `if (before)`
guard) and the walk fetches from the newest messages. With an invalid
effective end date — the codec's failure mode here — every window
comparison against `NaN` is false, so a run whose fetches all succeed
returns `.ok []` rather than aborting. -/
theorem getAllMessages_no_sentinel_check :
    (∀ (resp : Nat → Except FetchError (List Message)) (fromT : Int)
        (toTime : Option (Option Int)) (now : Int) (maxPages : Nat),
      1 ≤ maxPages →
      (getAllMessagesRequests resp fromT toTime now maxPages).head? =
        some (dateToDiscordSnowflake (some (jsEffectiveToDate toTime now)))) ∧
    (∀ (resp : Nat → Except FetchError (List Message)) (fromT : Int)
        (now : Int) (maxPages : Nat),
      (∀ j, ∃ msgs, resp j = .ok msgs) →
      getAllMessagesBetweenDates resp fromT (some none) now maxPages = .ok []) := by
  constructor
  · intro resp fromT toTime now maxPages hmax
    cases maxPages with
    | zero => omega
    | succ f =>
      rw [getAllMessagesRequests]
      exact fetchLoop_head_request fromT (jsEffectiveToDate toTime now) resp 0
        (dateToDiscordSnowflake (some (jsEffectiveToDate toTime now))) [] f
  · intro resp fromT now maxPages hresp
    have hloop := fetchLoop_no_qualifying fromT (jsEffectiveToDate (some none) now) resp
      (fun j => by
        obtain ⟨msgs, hj⟩ := hresp j
        exact ⟨msgs, hj, fun m hm hin => by
          simpa [jsEffectiveToDate, jsLeToDate] using hin.2⟩)
      maxPages 0 (dateToDiscordSnowflake (some (jsEffectiveToDate (some none) now))) []
    simp only [getAllMessagesBetweenDates, hloop]
    rfl

/-- Witness for C8 (amended) at a concrete invalid-end-date run. -/
theorem getAllMessages_no_sentinel_check_witness :
    (getAllMessagesRequests (fun _ => .ok []) 0 (some none) 0 50).head? =
      some (dateToDiscordSnowflake (some (jsEffectiveToDate (some none) 0))) ∧
    getAllMessagesBetweenDates (fun _ => .ok []) 0 (some none) 0 50 = .ok [] :=
  ⟨getAllMessages_no_sentinel_check.1 (fun _ => .ok []) 0 (some none) 0 50 (by decide),
    getAllMessages_no_sentinel_check.2 (fun _ => .ok []) 0 0 50 (fun j => ⟨[], rfl⟩)⟩

/-- C6 counterexample: a `Retry-After` header of `"0"` is present and
parseable — it parses to 0 — yet the carried value is 5, not the parsed 0:
`parseInt(retryAfter, 10) || 5` treats the falsy parse result 0 as if the
header were absent. So the error does not always carry the value parsed
from the header, and absent/unparseable are not the only paths to the
default. -/
theorem handleResponse_429_counterexample :
    handleResponse (⟨false, 429, some "0", []⟩ : HttpResponse (List Message))
      = .error (.rateLimited 429 5 "Rate limited by Discord API") ∧
    jsParseInt "0" = some 0 ∧ (5 : Int) ≠ 0 := ⟨rfl, rfl, by decide⟩

/-- **C6 (amended).** Every page fetch whose HTTP response has status 429
fails with a rate-limit error whose `retryAfter` is: the value parsed from
the `Retry-After` header when that value is nonzero; and 5 when the header
is absent, unparseable, or parses to 0 (JS `|| 5` treats a parsed 0 as
falsy). A header value of `"12"` yields exactly 12. -/
theorem handleResponse_429 (α : Type) (r : HttpResponse α)
    (hok : r.ok = false) (hs : r.status = 429) :
    handleResponse r = .error (.rateLimited 429 (jsRetryAfterSeconds r.retryAfter)
        "Rate limited by Discord API") ∧
    (∀ s n, r.retryAfter = some s → jsParseInt s = some n → n ≠ 0 →
      jsRetryAfterSeconds r.retryAfter = n) ∧
    (r.retryAfter = none → jsRetryAfterSeconds r.retryAfter = 5) ∧
    (∀ s, r.retryAfter = some s → jsParseInt s = none →
      jsRetryAfterSeconds r.retryAfter = 5) ∧
    (∀ s, r.retryAfter = some s → jsParseInt s = some 0 →
      jsRetryAfterSeconds r.retryAfter = 5) ∧
    jsRetryAfterSeconds (some "12") = 12 := by
  refine ⟨?_, ?_, ?_, ?_, ?_, rfl⟩
  · simp [handleResponse, hok, hs]
  · intro s n hsome hparse hne
    rw [hsome]
    by_cases hse : s = ""
    · subst hse
      rw [show jsParseInt "" = none from rfl] at hparse
      cases hparse
    · simp only [jsRetryAfterSeconds, if_neg hse, hparse, if_neg hne]
  · intro h
    rw [h]
    rfl
  · intro s hsome hparse
    rw [hsome]
    by_cases hse : s = ""
    · subst hse; rfl
    · simp only [jsRetryAfterSeconds, if_neg hse, hparse]
  · intro s hsome hparse
    have hse : s ≠ "" := fun he => by
      subst he
      rw [show jsParseInt "" = none from rfl] at hparse
      cases hparse
    rw [hsome]
    simp only [jsRetryAfterSeconds, if_neg hse, hparse]
    rfl

/-- Witness for C6 (amended): a 429 response with `Retry-After: 12` yields
the rate-limit error with exactly 12. -/
theorem handleResponse_429_witness :
    handleResponse (⟨false, 429, some "12", []⟩ : HttpResponse (List Message))
      = .error (.rateLimited 429 (jsRetryAfterSeconds (some "12"))
          "Rate limited by Discord API") ∧
    jsRetryAfterSeconds (some "12") = 12 :=
  ⟨(handleResponse_429 (List Message) ⟨false, 429, some "12", []⟩ rfl rfl).1,
    (handleResponse_429 (List Message) ⟨false, 429, some "12", []⟩
      rfl rfl).2.1 "12" 12 rfl rfl (by decide)⟩
